import Mathlib

/-!
# Health Insight Tracker — verification of the Report Extraction Pipeline

A shallow embedding of the core decision logic of the repository's report
extraction pipeline (`src/services/openAIOCRService.ts`,
`src/services/openAIService.ts`, `src/services/groqService.ts`, and the
upload dialog), together with theorems settling the frozen claims about it.

External effects are modelled explicitly:
* the browser `localStorage` is a record of the keys the pipeline touches
  (`LocalStore`);
* each network call is an oracle parameter (`invoke`, `CatalogFetch`), and
  the sequence of issued requests is returned as an explicit trace;
* the JavaScript builtins `JSON.parse` / `parseFloat` / `String(...)` are
  modelled (`parseFloat` for plain decimal notation) or passed as oracle
  parameters (`jsonParse`), since they are not code of this repository;
* the patient-info regular expressions are passed as oracle parameters,
  since none of the frozen claims depends on the text they match.
-/

set_option autoImplicit false

namespace HealthInsight

/-! ## JavaScript-style values

The analyzer works on dynamically typed JSON data; `JVal` models the values
that can appear, with `jundefined` standing for an absent property. -/

inductive JVal : Type where
  | jundefined : JVal
  | jnull : JVal
  | jbool : Bool → JVal
  | jnum : Rat → JVal
  | jstr : String → JVal
  | jarr : List JVal → JVal
  | jobj : List (String × JVal) → JVal
deriving Repr

/-- JavaScript truthiness of a value (`undefined`, `null`, `false`, `0` and
`""` are falsy; objects and arrays are always truthy). -/
def jsTruthy : JVal → Bool
  | .jundefined => false
  | .jnull => false
  | .jbool b => b
  | .jnum q => q != 0
  | .jstr s => s != ""
  | .jarr _ => true
  | .jobj _ => true

/-- JavaScript `a || b`. -/
def jsOr (a b : JVal) : JVal := if jsTruthy a then a else b

/-- Property access `v.k`; yields `undefined` when the property is absent or
the value is not an object. -/
def getField (v : JVal) (k : String) : JVal :=
  match v with
  | .jobj fields => (fields.lookup k).getD .jundefined
  | _ => .jundefined

/-- Decimal digits to a natural number. -/
def digitsToNat (cs : List Char) : Nat :=
  cs.foldl (fun n c => 10 * n + (c.toNat - 48)) 0

/-- Models the JavaScript builtin `parseFloat` on plain decimal notation
(optional leading whitespace, optional sign, digits with an optional single
decimal point); `none` models `NaN`. -/
def parseFloat (s : String) : Option Rat :=
  let cs := s.data.dropWhile (fun c => c = ' ' || c = '\t' || c = '\n' || c = '\r')
  let neg : Bool := cs.head? = some '-'
  let cs := match cs with
    | '-' :: rest => rest
    | '+' :: rest => rest
    | other => other
  let intPart := cs.takeWhile Char.isDigit
  let rest := cs.dropWhile Char.isDigit
  let fracPart := match rest with
    | '.' :: r => r.takeWhile Char.isDigit
    | _ => []
  if intPart.isEmpty && fracPart.isEmpty then none
  else
    let mant : Int :=
      (digitsToNat intPart * 10 ^ fracPart.length + digitsToNat fracPart : Nat)
    some (mkRat (if neg then -mant else mant) (10 ^ fracPart.length))

/-- Models the JavaScript `String(...)` conversion (exact on strings, which
is the only case the pipeline's data exercises). -/
def jsToString : JVal → String
  | .jundefined => "undefined"
  | .jnull => "null"
  | .jbool b => if b then "true" else "false"
  | .jnum q => toString q.num ++ (if q.den = 1 then "" else "/" ++ toString q.den)
  | .jstr s => s
  | .jarr _ => ""
  | .jobj _ => "[object Object]"

/-! ## Data model (`openAIService.ts` / `groqService.ts` type declarations) -/

/-- Interface `HealthMetric` of `src/services/openAIService.ts`.  After normalization
`name`, `unit`, `range`, `description` and `category` are strings produced
by `String(...)`; `value` and `status` keep whatever JSON value the model
supplied (the code does not convert them), and `history` is a list of
date/value pairs. -/
structure HealthMetric : Type where
  name : String
  value : JVal
  unit : String
  status : JVal
  range : String
  history : List (String × Rat)
  description : String
  category : String

/-- Interface `AnalysisResult` of `src/services/openAIService.ts`.  `recommendations`,
`summary`, `detailedAnalysis` and `categories` keep their raw JSON values
(the code copies them through `|| default` without conversion). -/
structure AnalysisResult : Type where
  metrics : List HealthMetric
  recommendations : JVal
  summary : JVal
  detailedAnalysis : JVal
  categories : JVal
  modelUsed : Option String

/-- Interface `OCRResult` of `src/services/openAIOCRService.ts` (the optional
`confidence` field is never written by the code and is omitted). -/
structure OCRResult : Type where
  text : String
  modelUsed : String

/-! ## Best-Result Selector (`performOCR`, openAIOCRService.ts lines 354-357)

`successfulResults.reduce((best, current) =>
   current.text.length > best.text.length ? current : best,
   successfulResults[0])`
— a JavaScript `reduce` with an initial value folds over every element of
the array, including element 0. -/

/-- One step of the reduction: keep the accumulator unless the current
result has strictly more text. -/
def selectStep (best current : OCRResult) : OCRResult :=
  if current.text.length > best.text.length then current else best

/-- The Best-Result Selector: pick the result with the most extracted text
(`none` only on an empty list, which the caller has already excluded). -/
def selectBest : List OCRResult → Option OCRResult
  | [] => none
  | first :: rest => some ((first :: rest).foldl selectStep first)

/-! ## Structured Analyzer (`analyzeWithModel`, openAIService.ts lines 96-166)

The response content is either an already-parsed JSON object or a string;
a string is scraped with
`content.match(/```(?:json)?([\s\S]*?)```/) || content.match(/({[\s\S]*})/)`
and the scraped (or whole) text is given to `JSON.parse`, which is passed
in as the oracle `jsonParse`. -/

/-- A chat-completion `message.content`: a JSON value (when the provider
already decoded it) or plain text. -/
inductive ApiContent : Type where
  | jsonObj : JVal → ApiContent
  | text : String → ApiContent

/-- Split a character list at the first occurrence of `needle`, returning
the part before and the part after it. -/
def splitAtSubstr (needle : List Char) : List Char → Option (List Char × List Char)
  | [] => if needle.isEmpty then some ([], []) else none
  | c :: cs =>
    if needle.isPrefixOf (c :: cs) then some ([], (c :: cs).drop needle.length)
    else match splitAtSubstr needle cs with
      | some (before, after) => some (c :: before, after)
      | none => none

/-- Three backquote characters, the markdown code-fence delimiter. -/
def fenceChars : List Char := [Char.ofNat 96, Char.ofNat 96, Char.ofNat 96]

/-- The capture group of `/```(?:json)?([\s\S]*?)```/`: text between the
first code fence (optionally tagged `json`) and the next one. -/
def fenceGroup (s : String) : Option String :=
  match splitAtSubstr fenceChars s.data with
  | none => none
  | some (_, rest) =>
    let afterTag :=
      if ['j', 's', 'o', 'n'].isPrefixOf rest then
        (splitAtSubstr fenceChars (rest.drop 4)).map (fun p => p.1)
      else none
    match afterTag with
    | some g => some (String.mk g)
    | none => (splitAtSubstr fenceChars rest).map (fun p => String.mk p.1)

/-- The capture group of `/({[\s\S]*})/`: from the first `{` to the last
`}` after it, if both exist. -/
def bracesGroup (s : String) : Option String :=
  let cs := s.data
  match cs.findIdx? (fun c => c = '{'), (cs.reverse.findIdx? (fun c => c = '}')) with
  | some i, some jr =>
    let j := cs.length - 1 - jr
    if i < j then some (String.mk ((cs.drop i).take (j - i + 1))) else none
  | _, _ => none

/-- Computes `jsonMatch[1]?.trim() || contentText`: the scraped group (or the whole
text), trimmed, falling back to the untrimmed text when the trim is empty. -/
def extractJsonText (s : String) : String :=
  let group := match fenceGroup s with
    | some g => g
    | none => match bracesGroup s with
      | some g => g
      | none => s
  let t := group.trim
  if t = "" then s else t

/-- The fallback returned when `JSON.parse` throws
(openAIService.ts lines 126-137). -/
def parseErrorFallback (model : String) : AnalysisResult where
  metrics := []
  recommendations := .jarr [.jstr "Unable to analyze the report format. Please consult your healthcare provider for interpretation."]
  summary := .jstr "The analysis encountered an error when processing this report."
  detailedAnalysis := .jstr "There was an error processing the report content. The OCR text has been preserved for reference."
  categories := .jundefined
  modelUsed := some model

/-- The basic structure substituted when the parsed object is falsy or has
no `metrics` property (openAIService.ts lines 115-123). -/
def missingMetricsContent : JVal :=
  .jobj
    [ ("metrics", .jarr [])
    , ("recommendations", .jarr [.jstr "Unable to extract specific metrics from this report format. Please consult your healthcare provider for interpretation."])
    , ("summary", .jstr "The analysis could not extract structured metrics from this report format.")
    , ("detailedAnalysis", .jstr "The report format could not be properly parsed into structured metrics. The OCR text has been preserved for reference.")
    ]

/-- Metric normalization (openAIService.ts lines 140-157, identical in
groqService.ts lines 184-201): coerce numeric-looking string values without
a `/` to numbers, default the remaining fields, and attach an empty
history. -/
def normalizeMetric (m : JVal) : HealthMetric :=
  let rawValue := getField m "value"
  let value := match rawValue with
    | .jstr s =>
      if (parseFloat s).isSome && !(s.data.contains '/') then
        match parseFloat s with
        | some q => JVal.jnum q
        | none => rawValue
      else rawValue
    | _ => rawValue
  { name := jsToString (jsOr (getField m "name") (.jstr "Unnamed Parameter"))
  , value := value
  , unit := jsToString (jsOr (getField m "unit") (.jstr ""))
  , status := jsOr (getField m "status") (.jstr "normal")
  , range := jsToString (jsOr (getField m "range") (.jstr "Not specified"))
  , history := []
  , description := jsToString (jsOr (getField m "description") (.jstr ""))
  , category := jsToString (jsOr (getField m "category") (.jstr "Other")) }

/-- The substitution of openAIService.ts lines 115-123: replace a falsy
parsed object, or one without a `metrics` property, by the basic
missing-metrics structure. -/
def contentOrBasic (content : JVal) : JVal :=
  if !(jsTruthy content) || !(jsTruthy (getField content "metrics"))
  then missingMetricsContent else content

/-- Normalization of a successfully parsed analysis object
(openAIService.ts lines 115-166): substitute the basic structure when
needed, then normalize each metric and assemble the result.  A `none`
result models the outer `catch` returning `null` (reachable only when a
truthy `metrics` property is not an array, so `.map` throws). -/
def analyzeParsed (model : String) (content : JVal) : Option AnalysisResult :=
  match jsOr (getField (contentOrBasic content) "metrics") (.jarr []) with
  | .jarr rawMetrics =>
    some
      { metrics := rawMetrics.map normalizeMetric
      , recommendations := jsOr (getField (contentOrBasic content) "recommendations") (.jarr [])
      , summary := jsOr (getField (contentOrBasic content) "summary") (.jstr "")
      , detailedAnalysis := jsOr (getField (contentOrBasic content) "detailedAnalysis") (.jstr "")
      , categories := jsOr (getField (contentOrBasic content) "categories") (.jarr [])
      , modelUsed := some model }
  | _ => none

/-- The content-handling part of `analyzeWithModel` (openAIService.ts lines
96-166), from the extracted `message.content` to the returned
`AnalysisResult`.  `jsonParse` is the `JSON.parse` builtin (`none` models a
thrown `SyntaxError`, answered by the fixed parse-error fallback). -/
def analyzeContent (jsonParse : String → Option JVal) (model : String)
    (content : ApiContent) : Option AnalysisResult :=
  match content with
  | .jsonObj j => analyzeParsed model j
  | .text s =>
    match jsonParse (extractJsonText s) with
    | none => some (parseErrorFallback model)
    | some j => analyzeParsed model j

/-! ## Model Selection Policy (`getAvailableModels`, openAIOCRService.ts lines 11-89) -/

/-- Architecture block of an OpenRouter catalog entry. -/
structure Architecture : Type where
  modality : Option String
  inputModalities : Option (List String)

/-- An OpenRouter catalog entry, with `none` for absent (or non-array,
for the two array-valued fields) properties. -/
structure CatalogModel : Type where
  id : String
  capabilities : Option (List String)
  architecture : Option Architecture
  contextLength : Option Nat

/-- Substring containment, the JavaScript `hay.includes(needle)`. -/
def strIncludes (hay needle : String) : Bool :=
  (splitAtSubstr needle.data hay.data).isSome

/-- Vision-capability test of the catalog filter (openAIOCRService.ts lines
37-48): an explicit `vision` capability, or an architecture whose truthy
`modality` mentions `image` or whose `input_modalities` lists `image`. -/
def hasVisionCapability (m : CatalogModel) : Bool :=
  (match m.capabilities with
    | some caps => caps.contains "vision"
    | none => false)
  ||
  (match m.architecture with
    | some a =>
      match a.modality with
      | some modality =>
        modality != "" &&
          (strIncludes modality "image" ||
            (match a.inputModalities with
              | some ims => ims.contains "image"
              | none => false))
      | none => false
    | none => false)

/-- Context-length test (openAIOCRService.ts line 51): a truthy
`context_length` of at least 4000. -/
def hasEnoughContext (m : CatalogModel) : Bool :=
  match m.contextLength with
  | some n => n != 0 && decide (4000 ≤ n)
  | none => false

/-- The outcome of the catalog fetch: `failure` models a thrown error
(network failure or an unparsable body, caught by the `catch` block);
`response ok models` models a decoded HTTP response. -/
inductive CatalogFetch : Type where
  | failure : CatalogFetch
  | response : Bool → List CatalogModel → CatalogFetch

/-- The static default model list (`getDefaultModels`, openAIOCRService.ts
lines 81-89). -/
def getDefaultModels : List String :=
  [ "anthropic/claude-3-opus:beta"
  , "openai/gpt-4o"
  , "anthropic/claude-3-sonnet:beta"
  , "google/gemini-pro-vision"
  , "anthropic/claude-3-haiku:beta" ]

/-- Dynamic model selection (`getAvailableModels`, openAIOCRService.ts lines
11-78): filter the catalog to vision-capable entries with enough context,
keep the first 5, fall back to the defaults when that set is empty or the
fetch threw; a non-OK HTTP response returns the empty list. -/
def getAvailableModels (fetch : CatalogFetch) : List String :=
  match fetch with
  | .failure => getDefaultModels
  | .response ok models =>
    if !ok then []
    else
      let supported := (models.filter (fun m => hasVisionCapability m && hasEnoughContext m)).map (fun m => m.id)
      let topModels := supported.take 5
      if topModels.length = 0 then getDefaultModels else topModels

/-! ## Persisted state and the fan-out OCR pipeline
(`performOCR`, openAIOCRService.ts lines 260-376) -/

/-- The stored report envelope built by `processFile`
(UploadReportDialog.tsx lines 92-102). -/
structure StoredReport : Type where
  id : String
  title : String
  date : String
  reportType : String
  status : String
  metrics : List HealthMetric
  recommendations : JVal
  rawText : String
  summary : JVal

/-- The `localStorage` keys the pipeline touches, each `none` when absent. -/
structure LocalStore : Type where
  scannedReports : Option (List StoredReport)
  patientName : Option String
  patientAge : Option String
  patientGender : Option String
  openrouterApiKey : Option String

/-- Function `clearAllData` (openAIOCRService.ts lines 442-448): remove the
report and the three patient scalars. -/
def clearAllData (s : LocalStore) : LocalStore :=
  { s with scannedReports := none, patientName := none
         , patientAge := none, patientGender := none }

/-- An uploaded `File`: declared media type, byte size, original name. -/
structure UploadedFile : Type where
  name : String
  mediaType : String
  size : Nat

/-- The media types `performOCR` accepts (openAIOCRService.ts line 278). -/
def allowedTypes : List String := ["application/pdf", "image/jpeg", "image/png"]

/-- The 10 MiB size limit (openAIOCRService.ts line 288). -/
def maxFileSize : Nat := 10 * 1024 * 1024

/-- A network request issued by the pipeline. -/
inductive NetEvent : Type where
  | catalogFetch : NetEvent
  | modelCall : String → NetEvent
deriving DecidableEq

/-- The pipeline's external collaborators: the catalog fetch outcome, the
per-model OCR outcome (`none` for any failed invocation), and the two
regular-expression extractors, passed as oracles because no frozen claim
depends on the text they match. -/
structure OCRExternal : Type where
  catalog : CatalogFetch
  invoke : String → Option String
  nameFromFilename : String → Option String
  infoFromText : String → Option String × Option String × Option String

/-- Store the patient name/age/gender recovered from OCR text
(`extractPatientInfoFromText`, openAIOCRService.ts lines 252-254: each key
is written only when a value was found). -/
def applyPatientInfo (info : Option String × Option String × Option String)
    (s : LocalStore) : LocalStore :=
  let s := match info.1 with
    | some n => { s with patientName := some n }
    | none => s
  let s := match info.2.1 with
    | some a => { s with patientAge := some a }
    | none => s
  match info.2.2 with
  | some g => { s with patientGender := some g }
  | none => s

/-- Invoke `performOCRWithModel` on each selected model in array order
(openAIOCRService.ts lines 340-348), collecting the successful results, the
state updated by each success's patient-info extraction, and the issued
requests. -/
def runModels (ext : OCRExternal) : List String → LocalStore →
    List OCRResult × LocalStore × List NetEvent
  | [], s => ([], s, [])
  | m :: ms, s =>
    match ext.invoke m with
    | some text =>
      let s := applyPatientInfo (ext.infoFromText text) s
      let rest := runModels ext ms s
      (⟨text, m⟩ :: rest.1, rest.2.1, .modelCall m :: rest.2.2)
    | none =>
      let rest := runModels ext ms s
      (rest.1, rest.2.1, .modelCall m :: rest.2.2)

/-- JavaScript falsiness of `localStorage.getItem(...)`: absent (`null`) or
the empty string. -/
def apiKeyMissing : Option String → Bool
  | none => true
  | some k => k = ""

/-- The fan-out `performOCR` (openAIOCRService.ts lines 260-376): clear the
persisted data, check the credential, the media type and the size, remember
any patient name found in the filename, select models dynamically, run them
all, and keep the best result; any aggregate failure yields `none`.  The
third component is the trace of issued network requests. -/
def performOCRModel (ext : OCRExternal) (file : UploadedFile) (store : LocalStore) :
    Option OCRResult × LocalStore × List NetEvent :=
  let st := clearAllData store
  if apiKeyMissing st.openrouterApiKey then (none, st, [])
  else if !(allowedTypes.contains file.mediaType) then (none, st, [])
  else if maxFileSize < file.size then (none, st, [])
  else
    let st := match ext.nameFromFilename file.name with
      | some n => { st with patientName := some n }
      | none => st
    let modelsToUse := getAvailableModels ext.catalog
    if modelsToUse.isEmpty then (none, st, [.catalogFetch])
    else
      let ran := runModels ext modelsToUse st
      match selectBest ran.1 with
      | none => (none, ran.2.1, .catalogFetch :: ran.2.2)
      | some best => (some best, ran.2.1, .catalogFetch :: ran.2.2)

/-- Report-type classification (`determineReportType`,
UploadReportDialog.tsx lines 135-143). -/
def determineReportType (filename text : String) : String :=
  let lowerName := filename.toLower
  let lowerText := text.toLower
  if strIncludes lowerName "blood" || strIncludes lowerText "blood" then "blood"
  else if strIncludes lowerName "cholesterol" || strIncludes lowerText "cholesterol" then "cholesterol"
  else if strIncludes lowerName "cbc" || strIncludes lowerText "cbc" || strIncludes lowerText "complete blood count" then "cbc"
  else "blood"

/-- Removal of the filename extension, `name.replace(/\.[^/.]+$/, "")`:
drop a trailing dot followed by one or more characters none of which is a
dot or a slash. -/
def stripExtension (name : String) : String :=
  let rev := name.data.reverse
  match rev.findIdx? (fun c => c = '.') with
  | none => name
  | some k =>
    let extChars := rev.take k
    if 1 ≤ k && !(extChars.contains '.') && !(extChars.contains '/') then
      String.mk (rev.drop (k + 1)).reverse
    else name

/-- The `processFile` pipeline of UploadReportDialog.tsx lines 58-106 as it
acts on persisted state: run OCR, run the analysis (an oracle from OCR text,
since its own effects touch no persisted key this model tracks beyond the
already-cleared report slot), and write the single stored report only when
both stages succeeded.  `freshId` and `now` stand for `uuidv4()` and
`new Date().toISOString()`. -/
def processFileModel (ext : OCRExternal) (analyze : String → Option AnalysisResult)
    (freshId now : String) (file : UploadedFile) (store : LocalStore) : LocalStore :=
  match performOCRModel ext file store with
  | (none, st, _) => st
  | (some ocrResult, st, _) =>
    match analyze ocrResult.text with
    | none => st
    | some analysisResults =>
      let newReport : StoredReport :=
        { id := freshId
        , title := if stripExtension file.name = "" then "Health Report" else stripExtension file.name
        , date := now
        , reportType := determineReportType file.name ocrResult.text
        , status := "Analyzed"
        , metrics := analysisResults.metrics
        , recommendations := analysisResults.recommendations
        , rawText := ocrResult.text
        , summary := analysisResults.summary }
      { st with scannedReports := some [newReport] }

/-! ## Sequential-with-fallback OCR
(`performOCR`, openAIOCRService.ts lines 989-1077) -/

/-- The fallback loop of the sequential `performOCR` (openAIOCRService.ts
lines 1049-1055): invoke each fallback model in order and stop at the first
success.  Returns the result and the list of invoked models. -/
def ocrFallbackLoop (invoke : String → Option String) :
    List String → Option OCRResult × List String
  | [] => (none, [])
  | m :: ms =>
    match invoke m with
    | some text => (some ⟨text, m⟩, [m])
    | none =>
      let rest := ocrFallbackLoop invoke ms
      (rest.1, m :: rest.2)

/-- The sequential `performOCR` invocation logic (openAIOCRService.ts lines
997-1067): cap the configured fallback list at 8, invoke the primary model,
and only if it failed — with fallback enabled and a non-empty list — try the
fallbacks in order.  Returns the result and the trace of invoked models. -/
def ocrSequential (invoke : String → Option String) (primaryModel : String)
    (useMultipleModels : Bool) (fallbackModels : List String) :
    Option OCRResult × List String :=
  let fb := if 8 < fallbackModels.length then fallbackModels.take 8 else fallbackModels
  match invoke primaryModel with
  | some text => (some ⟨text, primaryModel⟩, [primaryModel])
  | none =>
    if useMultipleModels && !fb.isEmpty then
      let rest := ocrFallbackLoop invoke fb
      (rest.1, primaryModel :: rest.2)
    else (none, [primaryModel])

/-! ## Analysis-stage fallback
(`analyzeHealthReport`, openAIService.ts lines 173-250) -/

/-- The analysis fallback loop (openAIService.ts lines 210-223): invoke
each fallback in order; adopt a result only when it has more metrics than
the current one, and stop early only when an adopted result has more than 5
metrics.  Returns the result and the list of invoked models. -/
def analyzeFallbackLoop (invoke : String → Option AnalysisResult) :
    List String → Option AnalysisResult → Option AnalysisResult × List String
  | [], current => (current, [])
  | m :: ms, current =>
    match invoke m with
    | some fallbackResult =>
      let adopt : Bool := match current with
        | none => true
        | some c => decide (c.metrics.length < fallbackResult.metrics.length)
      if adopt then
        if 5 < fallbackResult.metrics.length then (some fallbackResult, [m])
        else
          let rest := analyzeFallbackLoop invoke ms (some fallbackResult)
          (rest.1, m :: rest.2)
      else
        let rest := analyzeFallbackLoop invoke ms current
        (rest.1, m :: rest.2)
    | none =>
      let rest := analyzeFallbackLoop invoke ms current
      (rest.1, m :: rest.2)

/-- The `analyzeHealthReport` invocation logic (openAIService.ts lines
178-224): cap the fallback list at 8, invoke the primary model, and enter
the fallback loop when the primary returned `null` or an empty metrics list
(with fallback enabled and a non-empty list).  Returns the result and the
trace of invoked models. -/
def analyzeSequential (invoke : String → Option AnalysisResult) (primaryModel : String)
    (useMultipleModels : Bool) (fallbackModels : List String) :
    Option AnalysisResult × List String :=
  let fb := if 8 < fallbackModels.length then fallbackModels.take 8 else fallbackModels
  let primaryResult := invoke primaryModel
  if (match primaryResult with
      | none => true
      | some r => r.metrics.isEmpty) && useMultipleModels && !fb.isEmpty then
    let rest := analyzeFallbackLoop invoke fb primaryResult
    (rest.1, primaryModel :: rest.2)
  else (primaryResult, [primaryModel])

/-! ## Metric Reconciler

Modelled from the spec: the Metric Reconciler of spec sections 3 and 4.7
(normalized-name keyed merge of metric lists) has no implementation under
`src/` — only the single-result pipelines appear there — so the definitions
below follow the spec's words: the merge key is the metric name case
folded, stripped of punctuation/whitespace, with a fixed synonym table
applied; results are processed in order, a new key is inserted verbatim and
an existing key is updated in place. -/

/-- Modelled from the spec: the fixed synonym table of the §3 normalization
rule (examples given there). -/
def synonymTable : List (String × String) :=
  [("triglycerides", "triglyceride"), ("sodium", "na")]

/-- Modelled from the spec: normalized metric name — lower-cased, stripped
of punctuation and whitespace (only letters and digits are kept), then
passed through the fixed synonym table. -/
def normalizeName (s : String) : String :=
  let base := String.mk ((s.data.map Char.toLower).filter Char.isAlphanum)
  (synonymTable.lookup base).getD base

/-- Modelled from the spec: placeholder reference ranges (§4.7 treats a
missing or `Not specified` range as replaceable). -/
def rangeIsPlaceholder (r : String) : Bool :=
  r = "" || r = "Not specified"

/-- Modelled from the spec: the §4.7 in-place update of an existing merged
entry — keep the entry, replacing its description by a longer incoming one,
its `Other` category by a specific incoming one, and its range by a more
specific (longer non-placeholder) incoming one. -/
def updateEntry (old incoming : HealthMetric) : HealthMetric :=
  { old with
    description :=
      if incoming.description ≠ "" && old.description.length < incoming.description.length
      then incoming.description else old.description
  , category :=
      if old.category = "Other" && incoming.category ≠ "Other"
      then incoming.category else old.category
  , range :=
      if !(rangeIsPlaceholder incoming.range) &&
          (rangeIsPlaceholder old.range || old.range.length < incoming.range.length)
      then incoming.range else old.range }

/-- Modelled from the spec: process one metric into the working set — insert
verbatim when its normalized name is new, update the existing entry in
place otherwise. -/
def insertMetric (acc : List HealthMetric) (h : HealthMetric) : List HealthMetric :=
  if acc.any (fun e => normalizeName e.name = normalizeName h.name) then
    acc.map (fun e => if normalizeName e.name = normalizeName h.name then updateEntry e h else e)
  else acc ++ [h]

/-- Modelled from the spec: the Metric Reconciler merge of two metric
lists — process all metrics in the order obtained, keyed by normalized
name. -/
def mergeMetrics (xs ys : List HealthMetric) : List HealthMetric :=
  (xs ++ ys).foldl insertMetric []

/-- The merge keys of a metric list: each entry's normalized name. -/
def metricKeys (xs : List HealthMetric) : List String :=
  xs.map (fun e => normalizeName e.name)

/-! ## Concrete data used by counterexamples and witnesses -/

/-- A metric with the given name and default remaining fields. -/
def exMetric (n : String) : HealthMetric :=
  { name := n, value := .jnum 1, unit := "", status := .jstr "normal"
  , range := "Not specified", history := [], description := "", category := "Other" }

/-- An analysis result carrying `k` metrics. -/
def exAnalysis (k : Nat) : AnalysisResult :=
  { metrics := (List.range k).map (fun i => exMetric (toString i))
  , recommendations := .jarr [], summary := .jstr "", detailedAnalysis := .jstr ""
  , categories := .jarr [], modelUsed := some "model" }

/-- An analysis oracle under which the primary model fails and both
fallback models succeed, the first with 1 metric and the second with 2. -/
def cexAnalyzeInvoke : String → Option AnalysisResult := fun m =>
  if m = "primary" then none
  else if m = "fb1" then some (exAnalysis 1)
  else if m = "fb2" then some (exAnalysis 2)
  else none

/-- OCR externals under which every model invocation fails, the catalog
fetch throws (so the default models are selected), and the extractors find
nothing. -/
def cexOCRExternal : OCRExternal :=
  { catalog := .failure
  , invoke := fun _ => none
  , nameFromFilename := fun _ => none
  , infoFromText := fun _ => (none, none, none) }

/-- A catalog entry advertising vision support and an 8000-token context. -/
def exVisionModel : CatalogModel :=
  { id := "vendor/vision-model", capabilities := some ["vision"]
  , architecture := none, contextLength := some 8000 }

/-- A catalog entry with no vision capability. -/
def exTextModel : CatalogModel :=
  { id := "vendor/text-model", capabilities := some []
  , architecture := none, contextLength := some 8000 }

/-- A small valid PDF upload. -/
def exPdfFile : UploadedFile :=
  { name := "Report_John_Doe.pdf", mediaType := "application/pdf", size := 1024 }

/-- A store holding a previous report, patient scalars and a credential. -/
def exStore : LocalStore :=
  { scannedReports := some []
  , patientName := some "Old Name"
  , patientAge := some "44"
  , patientGender := some "Female"
  , openrouterApiKey := some "sk-key" }

/-! # Theorems -/

/-! ## C1 — Best-Result Selector -/

/-- Invariant of the JavaScript `reduce`: the fold either keeps the seed
(and then nothing beats it) or returns a strictly longer list element that
every element is bounded by and that every earlier element is strictly
shorter than. -/
theorem foldl_selectStep_spec (rs : List OCRResult) (b best : OCRResult)
    (hbest : rs.foldl selectStep b = best) :
    (best = b ∧ ∀ r ∈ rs, r.text.length ≤ b.text.length)
    ∨ (∃ l₁ l₂, rs = l₁ ++ best :: l₂
        ∧ b.text.length < best.text.length
        ∧ (∀ r ∈ rs, r.text.length ≤ best.text.length)
        ∧ (∀ r ∈ l₁, r.text.length < best.text.length)) := by
  induction rs generalizing b with
  | nil => exact Or.inl ⟨hbest.symm, by simp⟩
  | cons c rs ih =>
    by_cases h : b.text.length < c.text.length
    · have hstep : selectStep b c = c := by
        simp [selectStep, h]
      rw [List.foldl_cons, hstep] at hbest
      rcases ih c hbest with ⟨heq, hall⟩ | ⟨l₁, l₂, hsplit, hlt, hall, hsmall⟩
      · refine Or.inr ⟨[], rs, ?_, ?_, ?_, ?_⟩
        · simp [heq]
        · rw [heq]; exact h
        · intro r hr
          rw [heq]
          rcases List.mem_cons.mp hr with rfl | hr
          · exact le_refl _
          · exact hall r hr
        · intro r hr; cases hr
      · refine Or.inr ⟨c :: l₁, l₂, ?_, ?_, ?_, ?_⟩
        · simp [hsplit]
        · exact lt_trans h hlt
        · intro r hr
          rcases List.mem_cons.mp hr with rfl | hr
          · exact le_of_lt hlt
          · exact hall r hr
        · intro r hr
          rcases List.mem_cons.mp hr with rfl | hr
          · exact hlt
          · exact hsmall r hr
    · have hstep : selectStep b c = b := by
        simp [selectStep, h]
      rw [List.foldl_cons, hstep] at hbest
      rcases ih b hbest with ⟨heq, hall⟩ | ⟨l₁, l₂, hsplit, hlt, hall, hsmall⟩
      · refine Or.inl ⟨heq, ?_⟩
        intro r hr
        rcases List.mem_cons.mp hr with rfl | hr
        · exact le_of_not_lt h
        · exact hall r hr
      · refine Or.inr ⟨c :: l₁, l₂, ?_, hlt, ?_, ?_⟩
        · simp [hsplit]
        · intro r hr
          rcases List.mem_cons.mp hr with rfl | hr
          · exact le_trans (le_of_not_lt h) (le_of_lt hlt)
          · exact hall r hr
        · intro r hr
          rcases List.mem_cons.mp hr with rfl | hr
          · exact lt_of_le_of_lt (le_of_not_lt h) hlt
          · exact hsmall r hr

/-- C1 (confirmed).  For every non-empty list of `OCRResult`s, the
Best-Result Selector returns an element of the list whose extracted-text
length bounds every element's length, and every element placed before the
returned one in input order is strictly shorter — so on ties the first
maximal element in input order is returned. -/
theorem selectBest_first_longest (first : OCRResult) (rest : List OCRResult) :
    ∃ best l₁ l₂, selectBest (first :: rest) = some best
      ∧ first :: rest = l₁ ++ best :: l₂
      ∧ (∀ r ∈ first :: rest, r.text.length ≤ best.text.length)
      ∧ (∀ r ∈ l₁, r.text.length < best.text.length) := by
  have hself : selectStep first first = first := by
    simp [selectStep]
  have hfold : (first :: rest).foldl selectStep first = rest.foldl selectStep first := by
    rw [List.foldl_cons, hself]
  rcases foldl_selectStep_spec rest first (rest.foldl selectStep first) rfl with
    ⟨heq, hall⟩ | ⟨l₁, l₂, hsplit, hlt, hall, hsmall⟩
  · refine ⟨first, [], rest, ?_, by simp, ?_, by simp⟩
    · simp only [selectBest, hfold, heq]
    · intro r hr
      rcases List.mem_cons.mp hr with rfl | hr
      · exact le_refl _
      · exact hall r hr
  · refine ⟨rest.foldl selectStep first, first :: l₁, l₂, ?_, ?_, ?_, ?_⟩
    · simp only [selectBest, hfold]
    · rw [List.cons_append, ← hsplit]
    · intro r hr
      rcases List.mem_cons.mp hr with rfl | hr
      · exact le_of_lt hlt
      · exact hall r hr
    · intro r hr
      rcases List.mem_cons.mp hr with rfl | hr
      · exact hlt
      · exact hsmall r hr

/-- Witness for C1: on a concrete list with a tie for the longest text, the
selector picks the first longest element (`"wxyz"` from model `m2`). -/
theorem selectBest_first_longest_witness :
    (∃ best l₁ l₂,
        selectBest [⟨"ab", "m1"⟩, ⟨"wxyz", "m2"⟩, ⟨"pqrs", "m3"⟩] = some best
      ∧ ([⟨"ab", "m1"⟩, ⟨"wxyz", "m2"⟩, ⟨"pqrs", "m3"⟩] : List OCRResult) = l₁ ++ best :: l₂
      ∧ (∀ r ∈ ([⟨"ab", "m1"⟩, ⟨"wxyz", "m2"⟩, ⟨"pqrs", "m3"⟩] : List OCRResult),
            r.text.length ≤ best.text.length)
      ∧ (∀ r ∈ l₁, r.text.length < best.text.length))
    ∧ selectBest [⟨"ab", "m1"⟩, ⟨"wxyz", "m2"⟩, ⟨"pqrs", "m3"⟩] = some ⟨"wxyz", "m2"⟩ :=
  ⟨selectBest_first_longest ⟨"ab", "m1"⟩ [⟨"wxyz", "m2"⟩, ⟨"pqrs", "m3"⟩], rfl⟩

/-! ## C2 — sequential with fallback -/

/-- The 8-entry cap written as `List.take`. -/
theorem eight_cap_eq (l : List String) :
    (if 8 < l.length then l.take 8 else l) = l.take 8 := by
  split
  · rfl
  · exact (List.take_of_length_le (le_of_not_lt (by assumption))).symm

/-- Shape of a run of the sequential OCR fallback loop: either every model
failed and all were invoked, or the list splits at the first success, which
is returned, and nothing after it is invoked. -/
theorem ocrFallbackLoop_cases (invoke : String → Option String) (ms : List String) :
    ((ocrFallbackLoop invoke ms).1 = none ∧ (ocrFallbackLoop invoke ms).2 = ms
      ∧ ∀ m ∈ ms, invoke m = none)
    ∨ (∃ pre m post text, ms = pre ++ m :: post
        ∧ (∀ x ∈ pre, invoke x = none)
        ∧ invoke m = some text
        ∧ (ocrFallbackLoop invoke ms).1 = some ⟨text, m⟩
        ∧ (ocrFallbackLoop invoke ms).2 = pre ++ [m]) := by
  induction ms with
  | nil => exact Or.inl ⟨rfl, rfl, by simp⟩
  | cons m ms ih =>
    cases h : invoke m with
    | some text =>
      refine Or.inr ⟨[], m, ms, text, by simp, by simp, h, ?_, ?_⟩ <;>
        simp [ocrFallbackLoop, h]
    | none =>
      rcases ih with ⟨h1, h2, h3⟩ | ⟨pre, m', post, text, hsplit, hpre, hm, hres, htr⟩
      · refine Or.inl ⟨?_, ?_, ?_⟩
        · simp [ocrFallbackLoop, h, h1]
        · simp [ocrFallbackLoop, h, h2]
        · intro x hx
          rcases List.mem_cons.mp hx with rfl | hx
          · exact h
          · exact h3 x hx
      · refine Or.inr ⟨m :: pre, m', post, text, by simp [hsplit], ?_, hm, ?_, ?_⟩
        · intro x hx
          rcases List.mem_cons.mp hx with rfl | hx
          · exact h
          · exact hpre x hx
        · simp [ocrFallbackLoop, h, hres]
        · simp [ocrFallbackLoop, h, htr]

/-- Shape of a run of the analysis fallback loop, given that the current
result (if any) has at most 5 metrics: either the whole list is invoked and
every successful invocation along it yielded at most 5 metrics, or the list
splits at the first invocation yielding more than 5 metrics, which is
returned, and nothing after it is invoked. -/
theorem analyzeFallbackLoop_cases (invoke : String → Option AnalysisResult)
    (ms : List String) (cur : Option AnalysisResult)
    (hcur : ∀ c, cur = some c → c.metrics.length ≤ 5) :
    ((analyzeFallbackLoop invoke ms cur).2 = ms
      ∧ ∀ x ∈ ms, ∀ fr, invoke x = some fr → fr.metrics.length ≤ 5)
    ∨ (∃ pre m post r, ms = pre ++ m :: post
        ∧ (∀ x ∈ pre, ∀ fr, invoke x = some fr → fr.metrics.length ≤ 5)
        ∧ invoke m = some r ∧ 5 < r.metrics.length
        ∧ (analyzeFallbackLoop invoke ms cur).1 = some r
        ∧ (analyzeFallbackLoop invoke ms cur).2 = pre ++ [m]) := by
  induction ms generalizing cur with
  | nil => exact Or.inl ⟨rfl, by simp⟩
  | cons m ms ih =>
    cases h : invoke m with
    | none =>
      rcases ih cur hcur with ⟨h2, h3⟩ | ⟨pre, m', post, r, hsplit, hpre, hm, hgt, hres, htr⟩
      · refine Or.inl ⟨by simp [analyzeFallbackLoop, h, h2], ?_⟩
        intro x hx fr hfr
        rcases List.mem_cons.mp hx with rfl | hx
        · rw [h] at hfr; cases hfr
        · exact h3 x hx fr hfr
      · refine Or.inr ⟨m :: pre, m', post, r, by simp [hsplit], ?_, hm, hgt, ?_, ?_⟩
        · intro x hx fr hfr
          rcases List.mem_cons.mp hx with rfl | hx
          · rw [h] at hfr; cases hfr
          · exact hpre x hx fr hfr
        · simp [analyzeFallbackLoop, h, hres]
        · simp [analyzeFallbackLoop, h, htr]
    | some fr =>
      cases cur with
      | none =>
        by_cases h5 : 5 < fr.metrics.length
        · refine Or.inr ⟨[], m, ms, fr, by simp, by simp, h, h5, ?_, ?_⟩ <;>
            simp [analyzeFallbackLoop, h, h5]
        · have he1 : (analyzeFallbackLoop invoke (m :: ms) none).1
              = (analyzeFallbackLoop invoke ms (some fr)).1 := by
            simp [analyzeFallbackLoop, h, h5]
          have he2 : (analyzeFallbackLoop invoke (m :: ms) none).2
              = m :: (analyzeFallbackLoop invoke ms (some fr)).2 := by
            simp [analyzeFallbackLoop, h, h5]
          have hle : fr.metrics.length ≤ 5 := le_of_not_lt h5
          rcases ih (some fr) (fun c hc => by cases hc; exact hle) with
            ⟨h2, h3⟩ | ⟨pre, m', post, r, hsplit, hpre, hm, hgt, hres, htr⟩
          · refine Or.inl ⟨by rw [he2, h2], ?_⟩
            intro x hx fr' hfr'
            rcases List.mem_cons.mp hx with rfl | hx
            · rw [h] at hfr'; cases hfr'; exact hle
            · exact h3 x hx fr' hfr'
          · refine Or.inr ⟨m :: pre, m', post, r, by simp [hsplit], ?_, hm, hgt, ?_, ?_⟩
            · intro x hx fr' hfr'
              rcases List.mem_cons.mp hx with rfl | hx
              · rw [h] at hfr'; cases hfr'; exact hle
              · exact hpre x hx fr' hfr'
            · rw [he1, hres]
            · rw [he2, htr]; rfl
      | some c =>
        have hc5 : c.metrics.length ≤ 5 := hcur c rfl
        by_cases hlt : c.metrics.length < fr.metrics.length
        · by_cases h5 : 5 < fr.metrics.length
          · refine Or.inr ⟨[], m, ms, fr, by simp, by simp, h, h5, ?_, ?_⟩ <;>
              simp [analyzeFallbackLoop, h, hlt, h5]
          · have he1 : (analyzeFallbackLoop invoke (m :: ms) (some c)).1
                = (analyzeFallbackLoop invoke ms (some fr)).1 := by
              simp [analyzeFallbackLoop, h, hlt, h5]
            have he2 : (analyzeFallbackLoop invoke (m :: ms) (some c)).2
                = m :: (analyzeFallbackLoop invoke ms (some fr)).2 := by
              simp [analyzeFallbackLoop, h, hlt, h5]
            have hle : fr.metrics.length ≤ 5 := le_of_not_lt h5
            rcases ih (some fr) (fun c' hc' => by cases hc'; exact hle) with
              ⟨h2, h3⟩ | ⟨pre, m', post, r, hsplit, hpre, hm, hgt, hres, htr⟩
            · refine Or.inl ⟨by rw [he2, h2], ?_⟩
              intro x hx fr' hfr'
              rcases List.mem_cons.mp hx with rfl | hx
              · rw [h] at hfr'; cases hfr'; exact hle
              · exact h3 x hx fr' hfr'
            · refine Or.inr ⟨m :: pre, m', post, r, by simp [hsplit], ?_, hm, hgt, ?_, ?_⟩
              · intro x hx fr' hfr'
                rcases List.mem_cons.mp hx with rfl | hx
                · rw [h] at hfr'; cases hfr'; exact hle
                · exact hpre x hx fr' hfr'
              · rw [he1, hres]
              · rw [he2, htr]; rfl
        · have hle : fr.metrics.length ≤ 5 :=
            le_trans (le_of_not_lt hlt) hc5
          have he1 : (analyzeFallbackLoop invoke (m :: ms) (some c)).1
              = (analyzeFallbackLoop invoke ms (some c)).1 := by
            simp [analyzeFallbackLoop, h, hlt]
          have he2 : (analyzeFallbackLoop invoke (m :: ms) (some c)).2
              = m :: (analyzeFallbackLoop invoke ms (some c)).2 := by
            simp [analyzeFallbackLoop, h, hlt]
          rcases ih (some c) (fun c' hc' => by cases hc'; exact hc5) with
            ⟨h2, h3⟩ | ⟨pre, m', post, r, hsplit, hpre, hm, hgt, hres, htr⟩
          · refine Or.inl ⟨by rw [he2, h2], ?_⟩
            intro x hx fr' hfr'
            rcases List.mem_cons.mp hx with rfl | hx
            · rw [h] at hfr'; cases hfr'; exact hle
            · exact h3 x hx fr' hfr'
          · refine Or.inr ⟨m :: pre, m', post, r, by simp [hsplit], ?_, hm, hgt, ?_, ?_⟩
            · intro x hx fr' hfr'
              rcases List.mem_cons.mp hx with rfl | hx
              · rw [h] at hfr'; cases hfr'; exact hle
              · exact hpre x hx fr' hfr'
            · rw [he1, hres]
            · rw [he2, htr]; rfl

/-- The five invocation-ordering properties of the sequential OCR stage:
primary invoked first, the trace is an initial segment of the configured
order (capped at 8 fallbacks), a primary success ends the run at once, a
disabled flag means no fallback is tried, and every invoked model except
possibly the last failed. -/
theorem ocrSequential_spec_aux (invoke : String → Option String) (primary : String)
    (useMultiple : Bool) (fallbacks : List String) :
    (ocrSequential invoke primary useMultiple fallbacks).2.head? = some primary
    ∧ (∃ t, (ocrSequential invoke primary useMultiple fallbacks).2 ++ t
        = primary :: fallbacks.take 8)
    ∧ (∀ text, invoke primary = some text →
        ocrSequential invoke primary useMultiple fallbacks = (some ⟨text, primary⟩, [primary]))
    ∧ (useMultiple = false →
        (ocrSequential invoke primary useMultiple fallbacks).2 = [primary])
    ∧ (∀ m ∈ (ocrSequential invoke primary useMultiple fallbacks).2.dropLast,
        invoke m = none) := by
  rcases h : invoke primary with _ | text
  · have hno : (useMultiple && !(fallbacks.take 8).isEmpty) = false →
        ocrSequential invoke primary useMultiple fallbacks = (none, [primary]) := by
      intro hcond
      simp [ocrSequential, eight_cap_eq, h, hcond]
    rcases hc : (useMultiple && !(fallbacks.take 8).isEmpty) with _ | _
    · have he := hno hc
      have hu : useMultiple = false →
          (ocrSequential invoke primary useMultiple fallbacks).2 = [primary] := by
        intro
        rw [he]
      by_cases hemp : (fallbacks.take 8).isEmpty = true
      · have hnil : fallbacks.take 8 = [] := List.isEmpty_iff.mp hemp
        refine ⟨by rw [he]; rfl, ⟨[], by rw [he, hnil]; rfl⟩, ?_, hu, ?_⟩
        · intro text' htext'
          cases htext'
        · intro m hm
          rw [he] at hm
          cases hm
      · refine ⟨by rw [he]; rfl, ⟨fallbacks.take 8, by rw [he]; rfl⟩, ?_, hu, ?_⟩
        · intro text' htext'
          cases htext'
        · intro m hm
          rw [he] at hm
          cases hm
    · have hubool : useMultiple = true := by
        rcases useMultiple with _ | _
        · rw [Bool.false_and] at hc
          cases hc
        · rfl
      have he : ocrSequential invoke primary useMultiple fallbacks
          = ((ocrFallbackLoop invoke (fallbacks.take 8)).1,
              primary :: (ocrFallbackLoop invoke (fallbacks.take 8)).2) := by
        simp [ocrSequential, eight_cap_eq, h, hc]
      have hu : useMultiple = false →
          (ocrSequential invoke primary useMultiple fallbacks).2 = [primary] := by
        intro hfalse
        rw [hubool] at hfalse
        cases hfalse
      rcases ocrFallbackLoop_cases invoke (fallbacks.take 8) with
        ⟨hres, htr, hall⟩ | ⟨pre, m, post, text, hsplit, hpre, hm, hres, htr⟩
      · refine ⟨by rw [he]; rfl, ⟨[], by rw [he, htr]; simp⟩, ?_, hu, ?_⟩
        · intro text' htext'
          cases htext'
        · intro x hx
          rw [he, htr] at hx
          have hx' := List.mem_of_mem_dropLast hx
          rcases List.mem_cons.mp hx' with rfl | hx'
          · exact h
          · exact hall x hx'
      · refine ⟨by rw [he]; rfl, ⟨post, ?_⟩, ?_, hu, ?_⟩
        · rw [he, htr, hsplit]
          simp
        · intro text' htext'
          cases htext'
        · intro x hx
          rw [he, htr] at hx
          have hshape : primary :: (pre ++ [m]) = (primary :: pre) ++ [m] := rfl
          rw [hshape, List.dropLast_concat] at hx
          rcases List.mem_cons.mp hx with rfl | hx
          · exact h
          · exact hpre x hx
  · have he : ocrSequential invoke primary useMultiple fallbacks
        = (some ⟨text, primary⟩, [primary]) := by
      simp [ocrSequential, h]
    refine ⟨by rw [he]; rfl, ⟨fallbacks.take 8, by rw [he]; rfl⟩, ?_,
      by intro; rw [he], ?_⟩
    · intro text' htext'
      injection htext' with hx
      rw [← hx]
      exact he
    · intro m hm
      rw [he] at hm
      cases hm

/-- The four invocation-ordering properties of the analysis stage: primary
invoked first, the trace is an initial segment of the configured order
(capped at 8 fallbacks), a primary success carrying metrics ends the run at
once, and every fallback invoked before the last one either failed or
yielded at most 5 metrics. -/
theorem analyzeSequential_spec_aux (invoke : String → Option AnalysisResult)
    (primary : String) (useMultiple : Bool) (fallbacks : List String) :
    (analyzeSequential invoke primary useMultiple fallbacks).2.head? = some primary
    ∧ (∃ t, (analyzeSequential invoke primary useMultiple fallbacks).2 ++ t
        = primary :: fallbacks.take 8)
    ∧ (∀ r, invoke primary = some r → r.metrics.isEmpty = false →
        analyzeSequential invoke primary useMultiple fallbacks = (some r, [primary]))
    ∧ (∀ m ∈ (analyzeSequential invoke primary useMultiple fallbacks).2.tail.dropLast,
        ∀ r, invoke m = some r → r.metrics.length ≤ 5) := by
  have hsingle : ∀ hcond : ((match invoke primary with
        | none => true
        | some r => r.metrics.isEmpty) && useMultiple && !(fallbacks.take 8).isEmpty) = false,
      analyzeSequential invoke primary useMultiple fallbacks
        = (invoke primary, [primary]) := by
    intro hcond
    simp only [analyzeSequential, eight_cap_eq] at *
    rw [hcond]
    simp
  have henter : ∀ hcond : ((match invoke primary with
        | none => true
        | some r => r.metrics.isEmpty) && useMultiple && !(fallbacks.take 8).isEmpty) = true,
      analyzeSequential invoke primary useMultiple fallbacks
        = ((analyzeFallbackLoop invoke (fallbacks.take 8) (invoke primary)).1,
            primary :: (analyzeFallbackLoop invoke (fallbacks.take 8) (invoke primary)).2) := by
    intro hcond
    simp only [analyzeSequential, eight_cap_eq] at *
    rw [hcond]
    simp
  have hcur : ((match invoke primary with
        | none => true
        | some r => r.metrics.isEmpty) = true) →
      ∀ c, invoke primary = some c → c.metrics.length ≤ 5 := by
    intro hie c hc
    rw [hc] at hie
    simp only at hie
    have : c.metrics.length = 0 := by
      rw [List.isEmpty_iff.mp hie]
      rfl
    rw [this]
    exact Nat.zero_le 5
  cases hcond : ((match invoke primary with
      | none => true
      | some r => r.metrics.isEmpty) && useMultiple && !(fallbacks.take 8).isEmpty) with
  | false =>
    have he := hsingle hcond
    refine ⟨by rw [he]; rfl, ⟨fallbacks.take 8, by rw [he]; rfl⟩, ?_, ?_⟩
    · intro r hr hie
      rw [he, hr]
    · intro m hm
      rw [he] at hm
      cases hm
  | true =>
    have he := henter hcond
    have hie : (match invoke primary with
        | none => true
        | some r => r.metrics.isEmpty) = true := by
      cases hM : (match invoke primary with
          | none => true
          | some r => r.metrics.isEmpty) with
      | true => rfl
      | false =>
        rw [hM, Bool.false_and, Bool.false_and] at hcond
        cases hcond
    rcases analyzeFallbackLoop_cases invoke (fallbacks.take 8) (invoke primary) (hcur hie) with
      ⟨htr, hall⟩ | ⟨pre, m, post, r, hsplit, hpre, hm, hgt, hres, htr⟩
    · refine ⟨by rw [he]; rfl, ⟨[], by rw [he, htr]; simp⟩, ?_, ?_⟩
      · intro r hr hrie
        rw [hr] at hie
        simp only at hie
        rw [hie] at hrie
        cases hrie
      · intro x hx fr hfr
        rw [he] at hx
        simp only [List.tail_cons] at hx
        rw [htr] at hx
        exact hall x (List.mem_of_mem_dropLast hx) fr hfr
    · refine ⟨by rw [he]; rfl, ⟨post, ?_⟩, ?_, ?_⟩
      · rw [he, htr, hsplit]
        simp
      · intro r' hr' hrie
        rw [hr'] at hie
        simp only at hie
        rw [hie] at hrie
        cases hrie
      · intro x hx fr hfr
        rw [he] at hx
        simp only [List.tail_cons] at hx
        rw [htr, List.dropLast_concat] at hx
        exact hpre x hx fr hfr

/-- Counterexample for C2: under `cexAnalyzeInvoke` the primary model
fails, the first fallback succeeds (with one metric), yet the second
fallback is still invoked — the first successful invocation does not stop
the remaining fallback attempts in the analysis stage. -/
theorem analysis_fallback_continues_after_success :
    (analyzeSequential cexAnalyzeInvoke "primary" true ["fb1", "fb2"]).2
      = ["primary", "fb1", "fb2"]
    ∧ (cexAnalyzeInvoke "fb1").isSome = true
    ∧ (∃ r, cexAnalyzeInvoke "fb1" = some r ∧ r.metrics.length = 1) := by
  refine ⟨?_, rfl, ⟨exAnalysis 1, rfl, rfl⟩⟩
  rfl

/-- C2 (corrected).  In sequential-with-fallback mode, for every
configuration, both stages invoke the primary model first and invoke
fallback models one at a time following the configured order (capped at 8);
the OCR stage tries fallbacks only when the primary failed with the flag
enabled and stops at the first success, while the analysis stage enters its
fallback loop when the primary returned no result or an empty metrics list
and stops early only when an invocation yields more than 5 metrics — every
fallback invoked before the last one either failed or returned at most 5
metrics, so a plain success does not short-circuit the analysis loop. -/
theorem sequential_fallback_order (invokeO : String → Option String)
    (invokeA : String → Option AnalysisResult) (primary : String)
    (useMultiple : Bool) (fallbacks : List String) :
    ((ocrSequential invokeO primary useMultiple fallbacks).2.head? = some primary
      ∧ (∃ t, (ocrSequential invokeO primary useMultiple fallbacks).2 ++ t
          = primary :: fallbacks.take 8)
      ∧ (∀ text, invokeO primary = some text →
          ocrSequential invokeO primary useMultiple fallbacks
            = (some ⟨text, primary⟩, [primary]))
      ∧ (useMultiple = false →
          (ocrSequential invokeO primary useMultiple fallbacks).2 = [primary])
      ∧ (∀ m ∈ (ocrSequential invokeO primary useMultiple fallbacks).2.dropLast,
          invokeO m = none))
    ∧ ((analyzeSequential invokeA primary useMultiple fallbacks).2.head? = some primary
      ∧ (∃ t, (analyzeSequential invokeA primary useMultiple fallbacks).2 ++ t
          = primary :: fallbacks.take 8)
      ∧ (∀ r, invokeA primary = some r → r.metrics.isEmpty = false →
          analyzeSequential invokeA primary useMultiple fallbacks = (some r, [primary]))
      ∧ (∀ m ∈ (analyzeSequential invokeA primary useMultiple fallbacks).2.tail.dropLast,
          ∀ r, invokeA m = some r → r.metrics.length ≤ 5)) :=
  ⟨ocrSequential_spec_aux invokeO primary useMultiple fallbacks,
   analyzeSequential_spec_aux invokeA primary useMultiple fallbacks⟩

/-- Witness for C2: with a primary OCR model that succeeds, the run is
exactly the primary invocation; and the analysis trace of the
counterexample oracle still starts with the primary model. -/
theorem sequential_fallback_order_witness :
    ocrSequential (fun m => if m = "primary" then some "TEXT" else none)
        "primary" true ["fb1", "fb2"]
      = (some ⟨"TEXT", "primary"⟩, ["primary"])
    ∧ (analyzeSequential cexAnalyzeInvoke "primary" true ["fb1", "fb2"]).2.head?
      = some "primary" :=
  ⟨(sequential_fallback_order (fun m => if m = "primary" then some "TEXT" else none)
      cexAnalyzeInvoke "primary" true ["fb1", "fb2"]).1.2.2.1 "TEXT" (by decide),
   (sequential_fallback_order (fun m => if m = "primary" then some "TEXT" else none)
      cexAnalyzeInvoke "primary" true ["fb1", "fb2"]).2.1⟩

/-! ## C4 — dynamic model selection -/

/-- Counterexample for C4: a non-OK HTTP catalog response makes
`getAvailableModels` return the empty list, not the static default model
list — the fallback to defaults covers only a thrown fetch error or an
empty filtered set of an OK response. -/
theorem catalog_http_error_returns_empty :
    getAvailableModels (.response false []) = []
    ∧ getAvailableModels (.response false []) ≠ getDefaultModels := by
  constructor
  · rfl
  · decide

/-- C4 (corrected).  The dynamic model selection filters the catalog to
entries advertising vision support with context length at least 4000, caps
the result to the first 5 ids, and returns the static default list when the
fetch threw or when an OK response leaves the filtered set empty; a non-OK
HTTP response yields the empty list instead of the defaults; every selected
id comes from the defaults or from a filtered catalog entry. -/
theorem getAvailableModels_filter_cap_default (models : List CatalogModel) :
    getAvailableModels .failure = getDefaultModels
    ∧ getAvailableModels (.response false models) = []
    ∧ (((models.filter (fun m => hasVisionCapability m && hasEnoughContext m)).map
          (fun m => m.id)).take 5 = [] →
        getAvailableModels (.response true models) = getDefaultModels)
    ∧ (((models.filter (fun m => hasVisionCapability m && hasEnoughContext m)).map
          (fun m => m.id)).take 5 ≠ [] →
        getAvailableModels (.response true models)
          = ((models.filter (fun m => hasVisionCapability m && hasEnoughContext m)).map
              (fun m => m.id)).take 5)
    ∧ (getAvailableModels (.response true models)).length ≤ 5
    ∧ (∀ mid ∈ getAvailableModels (.response true models),
        mid ∈ getDefaultModels
        ∨ ∃ m ∈ models, m.id = mid ∧ hasVisionCapability m = true
            ∧ ∃ n, m.contextLength = some n ∧ 4000 ≤ n) := by
  have hunfold : getAvailableModels (.response true models)
      = (if (((models.filter (fun m => hasVisionCapability m && hasEnoughContext m)).map
            (fun m => m.id)).take 5).length = 0 then getDefaultModels
          else ((models.filter (fun m => hasVisionCapability m && hasEnoughContext m)).map
            (fun m => m.id)).take 5) := by
    simp [getAvailableModels]
  refine ⟨rfl, rfl, ?_, ?_, ?_, ?_⟩
  · intro hnil
    rw [hunfold, hnil]
    rfl
  · intro hne
    rw [hunfold, if_neg (fun h0 => hne (List.length_eq_zero.mp h0))]
  · rw [hunfold]
    split
    · decide
    · exact List.length_take_le 5 _
  · intro mid hmid
    rw [hunfold] at hmid
    by_cases h0 : (((models.filter (fun m => hasVisionCapability m && hasEnoughContext m)).map
        (fun m => m.id)).take 5).length = 0
    · rw [if_pos h0] at hmid
      exact Or.inl hmid
    · rw [if_neg h0] at hmid
      have hmem := List.mem_of_mem_take hmid
      rcases List.mem_map.mp hmem with ⟨m, hmf, hmid'⟩
      rcases List.mem_filter.mp hmf with ⟨hmm, hpred⟩
      simp only [Bool.and_eq_true] at hpred
      refine Or.inr ⟨m, hmm, hmid', hpred.1, ?_⟩
      rcases hctx : m.contextLength with _ | n
      · rw [hasEnoughContext, hctx] at hpred
        cases hpred.2
      · refine ⟨n, rfl, ?_⟩
        have h2 := hpred.2
        rw [hasEnoughContext, hctx, Bool.and_eq_true] at h2
        exact of_decide_eq_true h2.2

/-- Witness for C4: on a concrete OK catalog holding one vision-capable
entry and one text-only entry, selection returns exactly the vision entry,
and a thrown fetch yields the default list. -/
theorem getAvailableModels_filter_cap_default_witness :
    getAvailableModels (.response true [exVisionModel, exTextModel])
      = ["vendor/vision-model"]
    ∧ getAvailableModels .failure = getDefaultModels :=
  ⟨((getAvailableModels_filter_cap_default [exVisionModel, exTextModel]).2.2.2.1
      (by decide)).trans (by decide),
   (getAvailableModels_filter_cap_default []).1⟩

/-! ## C3, C7, C9 — the fan-out OCR pipeline and persisted state -/

/-- Patient-info writes never touch the stored report slot. -/
theorem applyPatientInfo_scanned (info : Option String × Option String × Option String)
    (s : LocalStore) :
    (applyPatientInfo info s).scannedReports = s.scannedReports := by
  rcases info with ⟨n, a, g⟩
  rcases n with _ | n <;> rcases a with _ | a <;> rcases g with _ | g <;> rfl

/-- Running the selected models never touches the stored report slot. -/
theorem runModels_scanned (ext : OCRExternal) (ms : List String) (st : LocalStore) :
    (runModels ext ms st).2.1.scannedReports = st.scannedReports := by
  induction ms generalizing st with
  | nil => rfl
  | cons m ms ih =>
    cases h : ext.invoke m with
    | some text => simp [runModels, h, ih, applyPatientInfo_scanned]
    | none => simp [runModels, h, ih]

/-- When every invocation fails, running the models collects nothing,
leaves the state alone, and issues one request per model. -/
theorem runModels_all_fail (ext : OCRExternal) (h : ∀ m, ext.invoke m = none)
    (ms : List String) (st : LocalStore) :
    runModels ext ms st = ([], st, ms.map .modelCall) := by
  induction ms with
  | nil => rfl
  | cons m ms ih => simp [runModels, h m, ih]

/-- Every input-validation rejection (missing credential, bad media type,
oversize file) returns the failure result over the cleared store with no
network request issued. -/
theorem performOCR_rejected_state (ext : OCRExternal) (file : UploadedFile)
    (store : LocalStore)
    (h : apiKeyMissing store.openrouterApiKey = true
      ∨ allowedTypes.contains file.mediaType = false
      ∨ maxFileSize < file.size) :
    performOCRModel ext file store = (none, clearAllData store, []) := by
  simp only [performOCRModel]
  by_cases h1 : apiKeyMissing (clearAllData store).openrouterApiKey = true
  · rw [if_pos h1]
  · rw [if_neg h1]
    rcases h with h | h | h
    · exact absurd h h1
    · have h2 : (!(allowedTypes.contains file.mediaType)) = true := by
        rw [h]
        rfl
      rw [if_pos h2]
    · by_cases h2 : (!(allowedTypes.contains file.mediaType)) = true
      · rw [if_pos h2]
      · rw [if_neg h2, if_pos h]

/-- The stored report slot is `none` after `performOCR`, whatever happens:
it is removed at entry and never written inside the pipeline. -/
theorem performOCR_scanned_none (ext : OCRExternal) (file : UploadedFile)
    (store : LocalStore) :
    (performOCRModel ext file store).2.1.scannedReports = none := by
  simp only [performOCRModel]
  split
  · rfl
  · split
    · rfl
    · split
      · rfl
      · rcases hn : ext.nameFromFilename file.name with _ | n <;>
          simp only [hn] <;>
          split <;>
          first
            | rfl
            | (split <;> simp [runModels_scanned, clearAllData])

/-- C9 (confirmed).  `performOCR` removes the stored report and the three
patient scalars at entry, before the credential, media-type and size checks
run: every validation-rejected run returns the cleared store (all four
persisted keys removed), and the stored report slot is never repopulated by
the OCR stage. -/
theorem performOCR_clears_state_first (ext : OCRExternal) (file : UploadedFile)
    (store : LocalStore) :
    ((apiKeyMissing store.openrouterApiKey = true
        ∨ allowedTypes.contains file.mediaType = false
        ∨ maxFileSize < file.size) →
      performOCRModel ext file store = (none, clearAllData store, [])
      ∧ (clearAllData store).scannedReports = none
      ∧ (clearAllData store).patientName = none
      ∧ (clearAllData store).patientAge = none
      ∧ (clearAllData store).patientGender = none)
    ∧ (performOCRModel ext file store).2.1.scannedReports = none :=
  ⟨fun h => ⟨performOCR_rejected_state ext file store h, rfl, rfl, rfl, rfl⟩,
   performOCR_scanned_none ext file store⟩

/-- Witness for C9: uploading a text file over a populated store rejects
the upload yet wipes the previously stored report and patient scalars. -/
theorem performOCR_clears_state_first_witness :
    (performOCRModel cexOCRExternal
        ⟨"notes.txt", "text/plain", 100⟩ exStore
      = (none, clearAllData exStore, [])
      ∧ (clearAllData exStore).scannedReports = none
      ∧ (clearAllData exStore).patientName = none
      ∧ (clearAllData exStore).patientAge = none
      ∧ (clearAllData exStore).patientGender = none)
    ∧ (performOCRModel cexOCRExternal
        ⟨"notes.txt", "text/plain", 100⟩ exStore).2.1.scannedReports = none :=
  ⟨(performOCR_clears_state_first cexOCRExternal
      ⟨"notes.txt", "text/plain", 100⟩ exStore).1 (Or.inr (Or.inl (by decide))),
   (performOCR_clears_state_first cexOCRExternal
      ⟨"notes.txt", "text/plain", 100⟩ exStore).2⟩

/-- C3 (confirmed).  When every selected model's invocation fails,
`performOCR` returns the failure result `none`, the stored report slot is
empty after the run, and the surrounding `processFile` writes no
`StoredReport` for that run. -/
theorem all_models_fail_no_report (ext : OCRExternal)
    (analyze : String → Option AnalysisResult) (freshId now : String)
    (file : UploadedFile) (store : LocalStore)
    (h : ∀ m, ext.invoke m = none) :
    (performOCRModel ext file store).1 = none
    ∧ (performOCRModel ext file store).2.1.scannedReports = none
    ∧ (processFileModel ext analyze freshId now file store).scannedReports = none := by
  have hres : (performOCRModel ext file store).1 = none := by
    simp only [performOCRModel]
    split
    · rfl
    · split
      · rfl
      · split
        · rfl
        · rcases hn : ext.nameFromFilename file.name with _ | n <;>
            simp only [hn] <;>
            split <;>
            first
              | rfl
              | (rw [runModels_all_fail ext h]; rfl)
  refine ⟨hres, performOCR_scanned_none ext file store, ?_⟩
  rcases hp : performOCRModel ext file store with ⟨res, st, tr⟩
  have hres' : res = none := by
    rw [hp] at hres
    exact hres
  subst hres'
  have hsc := performOCR_scanned_none ext file store
  rw [hp] at hsc
  simp only [processFileModel, hp]
  exact hsc

/-- Witness for C3: with every model failing (HTTP 500 on each), a valid
PDF upload yields a `none` result and an empty stored-report slot. -/
theorem all_models_fail_no_report_witness :
    (∀ m, cexOCRExternal.invoke m = none)
    ∧ (performOCRModel cexOCRExternal exPdfFile exStore).1 = none
    ∧ (performOCRModel cexOCRExternal exPdfFile exStore).2.1.scannedReports = none
    ∧ (processFileModel cexOCRExternal (fun _ => none) "id-1" "2026-01-01"
        exPdfFile exStore).scannedReports = none :=
  ⟨fun _ => rfl,
   (all_models_fail_no_report cexOCRExternal (fun _ => none) "id-1" "2026-01-01"
      exPdfFile exStore (fun _ => rfl)).1,
   (all_models_fail_no_report cexOCRExternal (fun _ => none) "id-1" "2026-01-01"
      exPdfFile exStore (fun _ => rfl)).2.1,
   (all_models_fail_no_report cexOCRExternal (fun _ => none) "id-1" "2026-01-01"
      exPdfFile exStore (fun _ => rfl)).2.2⟩

/-- C7 (confirmed).  A file whose declared media type is not PDF/JPEG/PNG,
or whose size exceeds 10 MiB, makes `performOCR` return the failure result
before issuing any network request; with a credential present, every file
of an accepted media type and size within the limit passes validation and
processing proceeds to the model-catalog request. -/
theorem upload_validation_gate (ext : OCRExternal) (file : UploadedFile)
    (store : LocalStore) :
    ((allowedTypes.contains file.mediaType = false ∨ maxFileSize < file.size) →
      (performOCRModel ext file store).1 = none
      ∧ (performOCRModel ext file store).2.2 = [])
    ∧ (apiKeyMissing store.openrouterApiKey = false →
        allowedTypes.contains file.mediaType = true →
        file.size ≤ maxFileSize →
        (performOCRModel ext file store).2.2.head? = some .catalogFetch) := by
  constructor
  · intro h
    have he := performOCR_rejected_state ext file store (Or.inr h)
    rw [he]
    exact ⟨rfl, rfl⟩
  · intro hkey htype hsize
    simp only [performOCRModel]
    rw [if_neg (by rw [show (clearAllData store).openrouterApiKey
          = store.openrouterApiKey from rfl, hkey]; exact Bool.false_ne_true)]
    rw [if_neg (by rw [htype]; exact Bool.false_ne_true)]
    rw [if_neg (Nat.not_lt.mpr hsize)]
    rcases hn : ext.nameFromFilename file.name with _ | n <;>
      simp only [hn] <;>
      split <;>
      first
        | rfl
        | (split <;> rfl)

/-- Witness for C7: an oversize PNG is rejected with no network request,
and a small PDF with a stored credential reaches the catalog request. -/
theorem upload_validation_gate_witness :
    ((performOCRModel cexOCRExternal
        ⟨"big.png", "image/png", 10 * 1024 * 1024 + 1⟩ exStore).1 = none
      ∧ (performOCRModel cexOCRExternal
          ⟨"big.png", "image/png", 10 * 1024 * 1024 + 1⟩ exStore).2.2 = [])
    ∧ (performOCRModel cexOCRExternal exPdfFile exStore).2.2.head?
      = some .catalogFetch :=
  ⟨(upload_validation_gate cexOCRExternal
      ⟨"big.png", "image/png", 10 * 1024 * 1024 + 1⟩ exStore).1
      (Or.inr (by decide)),
   (upload_validation_gate cexOCRExternal exPdfFile exStore).2
      (by decide) (by decide) (by decide)⟩

/-! ## C5, C6 — the Structured Analyzer -/

/-- C5 (confirmed).  For every analyzer response text in which neither the
code-fence scrape nor the brace scrape locates a JSON candidate and whose
(trimmed) text `JSON.parse` rejects, the Structured Analyzer returns the
fixed parse-error fallback: an empty metrics list and the summary stating
the analysis failed.  The component is a total function, so no exception
reaches the caller. -/
theorem malformed_response_falls_back (jsonParse : String → Option JVal)
    (model s : String)
    (hf : fenceGroup s = none) (hb : bracesGroup s = none)
    (hp : jsonParse (if s.trim = "" then s else s.trim) = none) :
    analyzeContent jsonParse model (.text s) = some (parseErrorFallback model)
    ∧ (parseErrorFallback model).metrics = []
    ∧ (parseErrorFallback model).summary
      = .jstr "The analysis encountered an error when processing this report." := by
  have hext : extractJsonText s = (if s.trim = "" then s else s.trim) := by
    simp [extractJsonText, hf, hb]
  refine ⟨?_, rfl, rfl⟩
  simp [analyzeContent, hext, hp]

/-- Witness for C5: the plain sentence `I cannot parse this document`
contains no code fence and no braces, so with a parser rejecting it the
analyzer returns the fixed fallback. -/
theorem malformed_response_falls_back_witness :
    fenceGroup "I cannot parse this document" = none
    ∧ bracesGroup "I cannot parse this document" = none
    ∧ (analyzeContent (fun _ => none) "openai/gpt-4o"
          (.text "I cannot parse this document")
        = some (parseErrorFallback "openai/gpt-4o")
      ∧ (parseErrorFallback "openai/gpt-4o").metrics = []
      ∧ (parseErrorFallback "openai/gpt-4o").summary
        = .jstr "The analysis encountered an error when processing this report.") :=
  ⟨by decide, by decide,
   malformed_response_falls_back (fun _ => none) "openai/gpt-4o"
     "I cannot parse this document" (by decide) (by decide) rfl⟩

/-- A successfully normalized analysis object carries metrics that are the
normalization of some raw metric list. -/
theorem analyzeParsed_metrics_shape (model : String) (j : JVal) (r : AnalysisResult)
    (hr : analyzeParsed model j = some r) :
    ∃ raw : List JVal, r.metrics = raw.map normalizeMetric := by
  rcases hm : jsOr (getField (contentOrBasic j) "metrics") (.jarr []) with
    _ | _ | b | q | s | xs | fs <;>
    simp only [analyzeParsed, hm] at hr
  case jarr =>
    injection hr with hr'
    exact ⟨xs, by rw [← hr']⟩
  all_goals cases hr

/-- Every successfully returned analysis carries metrics that are the
normalization of some raw metric list. -/
theorem analyzeContent_metrics_shape (jsonParse : String → Option JVal)
    (model : String) (content : ApiContent) (r : AnalysisResult)
    (hr : analyzeContent jsonParse model content = some r) :
    ∃ raw : List JVal, r.metrics = raw.map normalizeMetric := by
  rcases content with j | s
  · exact analyzeParsed_metrics_shape model j r hr
  · simp only [analyzeContent] at hr
    rcases hjp : jsonParse (extractJsonText s) with _ | j
    · rw [hjp] at hr
      injection hr with hr'
      exact ⟨[], by rw [← hr']; rfl⟩
    · rw [hjp] at hr
      exact analyzeParsed_metrics_shape model j r hr

/-- C6 (confirmed).  For every raw metric object of a successfully parsed
analyzer response, normalization converts a numeric-looking string value
without a `/` to a number, keeps a string value containing `/` as text,
replaces a missing unit/range/category/description by the fixed
placeholders, and attaches an empty history; and every returned metric list
is such a normalization. -/
theorem normalizeMetric_normalizes (fields : List (String × JVal)) :
    (∀ s q, getField (JVal.jobj fields) "value" = .jstr s →
        parseFloat s = some q → s.data.contains '/' = false →
        (normalizeMetric (JVal.jobj fields)).value = .jnum q)
    ∧ (∀ s, getField (JVal.jobj fields) "value" = .jstr s →
        s.data.contains '/' = true →
        (normalizeMetric (JVal.jobj fields)).value = .jstr s)
    ∧ (getField (JVal.jobj fields) "unit" = .jundefined →
        (normalizeMetric (JVal.jobj fields)).unit = "")
    ∧ (getField (JVal.jobj fields) "range" = .jundefined →
        (normalizeMetric (JVal.jobj fields)).range = "Not specified")
    ∧ (getField (JVal.jobj fields) "category" = .jundefined →
        (normalizeMetric (JVal.jobj fields)).category = "Other")
    ∧ (getField (JVal.jobj fields) "description" = .jundefined →
        (normalizeMetric (JVal.jobj fields)).description = "")
    ∧ (normalizeMetric (JVal.jobj fields)).history = []
    ∧ (∀ jsonParse model content r,
        analyzeContent jsonParse model content = some r →
        ∃ raw : List JVal, r.metrics = raw.map normalizeMetric) := by
  refine ⟨?_, ?_, ?_, ?_, ?_, ?_, rfl, analyzeContent_metrics_shape⟩
  · intro s q hval hq hslash
    have hnotin : '/' ∉ s.data := by simpa using hslash
    simp [normalizeMetric, hval, hq, hnotin]
  · intro s hval hslash
    have hin : '/' ∈ s.data := by simpa using hslash
    simp [normalizeMetric, hval, hin]
  · intro h
    simp [normalizeMetric, h, jsOr, jsTruthy, jsToString]
  · intro h
    simp [normalizeMetric, h, jsOr, jsTruthy, jsToString]
  · intro h
    simp [normalizeMetric, h, jsOr, jsTruthy, jsToString]
  · intro h
    simp [normalizeMetric, h, jsOr, jsTruthy, jsToString]

/-- Witness for C6: a metric whose value is the string `210` is coerced to
the number 210, a blood-pressure reading `120/80` stays text, and the
missing fields of a bare metric get the placeholder defaults. -/
theorem normalizeMetric_normalizes_witness :
    (normalizeMetric (JVal.jobj [("name", .jstr "Cholesterol"), ("value", .jstr "210")])).value
      = .jnum 210
    ∧ (normalizeMetric (JVal.jobj [("name", .jstr "BP"), ("value", .jstr "120/80")])).value
      = .jstr "120/80"
    ∧ (normalizeMetric (JVal.jobj [("name", .jstr "Cholesterol"), ("value", .jstr "210")])).unit
      = ""
    ∧ (normalizeMetric (JVal.jobj [("name", .jstr "Cholesterol"), ("value", .jstr "210")])).range
      = "Not specified"
    ∧ (normalizeMetric (JVal.jobj [("name", .jstr "Cholesterol"), ("value", .jstr "210")])).category
      = "Other"
    ∧ (normalizeMetric (JVal.jobj [("name", .jstr "Cholesterol"), ("value", .jstr "210")])).history
      = [] :=
  ⟨(normalizeMetric_normalizes [("name", .jstr "Cholesterol"), ("value", .jstr "210")]).1
      "210" 210 rfl rfl rfl,
   (normalizeMetric_normalizes [("name", .jstr "BP"), ("value", .jstr "120/80")]).2.1
      "120/80" rfl rfl,
   (normalizeMetric_normalizes [("name", .jstr "Cholesterol"), ("value", .jstr "210")]).2.2.1
      rfl,
   (normalizeMetric_normalizes [("name", .jstr "Cholesterol"), ("value", .jstr "210")]).2.2.2.1
      rfl,
   (normalizeMetric_normalizes [("name", .jstr "Cholesterol"), ("value", .jstr "210")]).2.2.2.2.1
      rfl,
   (normalizeMetric_normalizes [("name", .jstr "Cholesterol"), ("value", .jstr "210")]).2.2.2.2.2.2.1⟩

/-! ## C8 — the Metric Reconciler (spec-modelled) -/

/-- Updating an entry in place keeps its name, hence its merge key. -/
theorem updateEntry_name (old incoming : HealthMetric) :
    (updateEntry old incoming).name = old.name := rfl

/-- The keys after one insertion: unchanged when the key already exists,
extended by the new key otherwise. -/
theorem metricKeys_insert (acc : List HealthMetric) (h : HealthMetric) :
    metricKeys (insertMetric acc h)
      = if normalizeName h.name ∈ metricKeys acc then metricKeys acc
        else metricKeys acc ++ [normalizeName h.name] := by
  have hiff : (acc.any (fun e => normalizeName e.name = normalizeName h.name)) = true
      ↔ normalizeName h.name ∈ metricKeys acc := by
    simp only [List.any_eq_true, decide_eq_true_eq, metricKeys, List.mem_map]
  by_cases hmem : normalizeName h.name ∈ metricKeys acc
  · rw [if_pos hmem]
    have hany : (acc.any (fun e => normalizeName e.name = normalizeName h.name)) = true :=
      hiff.mpr hmem
    simp only [insertMetric, hany, if_pos]
    simp only [metricKeys, List.map_map]
    apply List.map_congr_left
    intro e _
    by_cases hk : normalizeName e.name = normalizeName h.name <;>
      simp [hk, updateEntry_name]
  · rw [if_neg hmem]
    have hany : (acc.any (fun e => normalizeName e.name = normalizeName h.name)) = false := by
      rcases ha : acc.any (fun e => normalizeName e.name = normalizeName h.name) with _ | _
      · rfl
      · exact absurd (hiff.mp ha) hmem
    simp [insertMetric, hany, metricKeys]

/-- Invariant of the reconciling fold: keys stay duplicate-free, existing
keys are preserved, every processed metric's key appears, and every key of
the result comes from the start set or a processed metric. -/
theorem foldl_insertMetric_keys (l : List HealthMetric) (acc : List HealthMetric)
    (hnd : (metricKeys acc).Nodup) :
    (metricKeys (l.foldl insertMetric acc)).Nodup
    ∧ (∀ k ∈ metricKeys acc, k ∈ metricKeys (l.foldl insertMetric acc))
    ∧ (∀ z ∈ l, normalizeName z.name ∈ metricKeys (l.foldl insertMetric acc))
    ∧ (∀ k ∈ metricKeys (l.foldl insertMetric acc),
        k ∈ metricKeys acc ∨ ∃ z ∈ l, k = normalizeName z.name) := by
  induction l generalizing acc with
  | nil =>
    exact ⟨hnd, fun k hk => hk, by simp, fun k hk => Or.inl hk⟩
  | cons h l ih =>
    have hkeys := metricKeys_insert acc h
    have hsub : ∀ k ∈ metricKeys acc, k ∈ metricKeys (insertMetric acc h) := by
      intro k hk
      rw [hkeys]
      split
      · exact hk
      · exact List.mem_append_left _ hk
    have hself : normalizeName h.name ∈ metricKeys (insertMetric acc h) := by
      rw [hkeys]
      split
      · assumption
      · exact List.mem_append_right _ (List.mem_singleton.mpr rfl)
    have hnd' : (metricKeys (insertMetric acc h)).Nodup := by
      rw [hkeys]
      split
      · exact hnd
      · simp only [List.nodup_append, List.nodup_cons, List.nodup_nil]
        refine ⟨hnd, by simp, ?_⟩
        intro k hk
        simp only [List.mem_singleton]
        intro hkeq
        subst hkeq
        exact absurd hk (by assumption)
    have hback : ∀ k ∈ metricKeys (insertMetric acc h),
        k ∈ metricKeys acc ∨ k = normalizeName h.name := by
      intro k hk
      rw [hkeys] at hk
      by_cases hmem : normalizeName h.name ∈ metricKeys acc
      · rw [if_pos hmem] at hk
        exact Or.inl hk
      · rw [if_neg hmem] at hk
        rcases List.mem_append.mp hk with hk | hk
        · exact Or.inl hk
        · exact Or.inr (List.mem_singleton.mp hk)
    obtain ⟨ih1, ih2, ih3, ih4⟩ := ih (insertMetric acc h) hnd'
    refine ⟨ih1, ?_, ?_, ?_⟩
    · intro k hk
      exact ih2 k (hsub k hk)
    · intro z hz
      rcases List.mem_cons.mp hz with rfl | hz
      · exact ih2 _ hself
      · exact ih3 z hz
    · intro k hk
      rcases ih4 k hk with hk' | ⟨z, hz, hkz⟩
      · rcases hback k hk' with hk'' | hk''
        · exact Or.inl hk''
        · exact Or.inr ⟨h, List.mem_cons_self h l, hk''⟩
      · exact Or.inr ⟨z, List.mem_cons_of_mem h hz, hkz⟩

/-- C8 (confirmed, spec-modelled).  The merged list has duplicate-free
normalized names, every input metric's normalized name occurs in it, and
every merged entry's normalized name comes from the inputs — exactly one
entry per distinct normalized name across the two lists. -/
theorem mergeMetrics_unique_names (xs ys : List HealthMetric) :
    (metricKeys (mergeMetrics xs ys)).Nodup
    ∧ (∀ z ∈ xs ++ ys, normalizeName z.name ∈ metricKeys (mergeMetrics xs ys))
    ∧ (∀ w ∈ mergeMetrics xs ys, normalizeName w.name ∈ metricKeys (xs ++ ys)) := by
  obtain ⟨h1, _, h3, h4⟩ := foldl_insertMetric_keys (xs ++ ys) [] (by simp [metricKeys])
  refine ⟨h1, h3, ?_⟩
  intro w hw
  have hk : normalizeName w.name ∈ metricKeys (mergeMetrics xs ys) := by
    simp only [metricKeys, List.mem_map]
    exact ⟨w, hw, rfl⟩
  rcases h4 _ hk with hfalse | ⟨z, hz, hkz⟩
  · simp [metricKeys] at hfalse
  · rw [hkz]
    simp only [metricKeys, List.mem_map]
    exact ⟨z, hz, rfl⟩

/-- Witness for C8: merging `[Glucose, Sodium]` with `[glucose!, Na]`
leaves exactly the two normalized names `glucose` and `na`. -/
theorem mergeMetrics_unique_names_witness :
    ((metricKeys (mergeMetrics [exMetric "Glucose", exMetric "Sodium"]
        [exMetric "glucose!", exMetric "Na"])).Nodup
      ∧ (∀ z ∈ [exMetric "Glucose", exMetric "Sodium"] ++ [exMetric "glucose!", exMetric "Na"],
          normalizeName z.name ∈ metricKeys (mergeMetrics
            [exMetric "Glucose", exMetric "Sodium"] [exMetric "glucose!", exMetric "Na"]))
      ∧ (∀ w ∈ mergeMetrics [exMetric "Glucose", exMetric "Sodium"]
            [exMetric "glucose!", exMetric "Na"],
          normalizeName w.name ∈ metricKeys
            ([exMetric "Glucose", exMetric "Sodium"] ++ [exMetric "glucose!", exMetric "Na"])))
    ∧ metricKeys (mergeMetrics [exMetric "Glucose", exMetric "Sodium"]
        [exMetric "glucose!", exMetric "Na"]) = ["glucose", "na"] :=
  ⟨mergeMetrics_unique_names [exMetric "Glucose", exMetric "Sodium"]
      [exMetric "glucose!", exMetric "Na"],
   by decide⟩

/-! ## C10 — fallback list capped at 8 -/

/-- Shape of an invocation trace that starts with the primary model and is
an initial segment of `primary :: l`: its tail is no longer than `l`, is an
initial segment of `l`, and every entry is the primary or an element of
`l`. -/
theorem trace_shape (trace l : List String) (primary : String)
    (hh : trace.head? = some primary) (hex : ∃ t, trace ++ t = primary :: l) :
    trace.tail.length ≤ l.length
    ∧ (∃ t, trace.tail ++ t = l)
    ∧ (∀ m ∈ trace, m = primary ∨ m ∈ l) := by
  rcases trace with _ | ⟨a, tr⟩
  · cases hh
  · have ha : a = primary := by
      injection hh
    subst ha
    rcases hex with ⟨t, ht⟩
    have htl : tr ++ t = l := by
      injection ht
    refine ⟨?_, ⟨t, htl⟩, ?_⟩
    · rw [← htl]
      simp only [List.tail_cons, List.length_append]
      exact Nat.le_add_right _ _
    · intro m hm
      rcases List.mem_cons.mp hm with rfl | hm
      · exact Or.inl rfl
      · right
        rw [← htl]
        exact List.mem_append_left _ hm

/-- C10 (confirmed).  Both the sequential OCR stage and the analysis stage
consider at most the first 8 configured fallback models: each trace after
the primary invocation is an initial segment of `fallbacks.take 8` of
length at most 8, and every invoked model is the primary or one of the
first 8 fallbacks — entries beyond the 8th are never invoked. -/
theorem fallback_capped_at_eight (invokeO : String → Option String)
    (invokeA : String → Option AnalysisResult) (primary : String)
    (useMultiple : Bool) (fallbacks : List String) :
    ((ocrSequential invokeO primary useMultiple fallbacks).2.tail.length ≤ 8
      ∧ (∃ t, (ocrSequential invokeO primary useMultiple fallbacks).2.tail ++ t
          = fallbacks.take 8)
      ∧ (∀ m ∈ (ocrSequential invokeO primary useMultiple fallbacks).2,
          m = primary ∨ m ∈ fallbacks.take 8))
    ∧ ((analyzeSequential invokeA primary useMultiple fallbacks).2.tail.length ≤ 8
      ∧ (∃ t, (analyzeSequential invokeA primary useMultiple fallbacks).2.tail ++ t
          = fallbacks.take 8)
      ∧ (∀ m ∈ (analyzeSequential invokeA primary useMultiple fallbacks).2,
          m = primary ∨ m ∈ fallbacks.take 8)) := by
  obtain ⟨ho1, ho2, -⟩ := ocrSequential_spec_aux invokeO primary useMultiple fallbacks
  obtain ⟨ha1, ha2, -⟩ := analyzeSequential_spec_aux invokeA primary useMultiple fallbacks
  obtain ⟨o1, o2, o3⟩ := trace_shape _ (fallbacks.take 8) primary ho1 ho2
  obtain ⟨a1, a2, a3⟩ := trace_shape _ (fallbacks.take 8) primary ha1 ha2
  exact ⟨⟨le_trans o1 (List.length_take_le 8 fallbacks), o2, o3⟩,
         ⟨le_trans a1 (List.length_take_le 8 fallbacks), a2, a3⟩⟩

/-- Witness for C10: with 10 configured fallbacks and every invocation
failing, the OCR stage invokes the primary and exactly the first 8
fallbacks. -/
theorem fallback_capped_at_eight_witness :
    (((ocrSequential (fun _ => none) "p" true
          ["f1", "f2", "f3", "f4", "f5", "f6", "f7", "f8", "f9", "f10"]).2.tail.length ≤ 8
      ∧ (∃ t, (ocrSequential (fun _ => none) "p" true
          ["f1", "f2", "f3", "f4", "f5", "f6", "f7", "f8", "f9", "f10"]).2.tail ++ t
          = ["f1", "f2", "f3", "f4", "f5", "f6", "f7", "f8", "f9", "f10"].take 8)
      ∧ (∀ m ∈ (ocrSequential (fun _ => none) "p" true
          ["f1", "f2", "f3", "f4", "f5", "f6", "f7", "f8", "f9", "f10"]).2,
          m = "p" ∨ m ∈ ["f1", "f2", "f3", "f4", "f5", "f6", "f7", "f8", "f9", "f10"].take 8))
    ∧ ((analyzeSequential (fun _ => none) "p" true
          ["f1", "f2", "f3", "f4", "f5", "f6", "f7", "f8", "f9", "f10"]).2.tail.length ≤ 8
      ∧ (∃ t, (analyzeSequential (fun _ => none) "p" true
          ["f1", "f2", "f3", "f4", "f5", "f6", "f7", "f8", "f9", "f10"]).2.tail ++ t
          = ["f1", "f2", "f3", "f4", "f5", "f6", "f7", "f8", "f9", "f10"].take 8)
      ∧ (∀ m ∈ (analyzeSequential (fun _ => none) "p" true
          ["f1", "f2", "f3", "f4", "f5", "f6", "f7", "f8", "f9", "f10"]).2,
          m = "p" ∨ m ∈ ["f1", "f2", "f3", "f4", "f5", "f6", "f7", "f8", "f9", "f10"].take 8)))
    ∧ (ocrSequential (fun _ => none) "p" true
        ["f1", "f2", "f3", "f4", "f5", "f6", "f7", "f8", "f9", "f10"]).2
      = ["p", "f1", "f2", "f3", "f4", "f5", "f6", "f7", "f8"] :=
  ⟨fallback_capped_at_eight (fun _ => none) (fun _ => none) "p" true
      ["f1", "f2", "f3", "f4", "f5", "f6", "f7", "f8", "f9", "f10"],
   by decide⟩

end HealthInsight
